import Mathlib

/-!
A shallow embedding of `scripts/generate_test_references.py` (repository
codelynx/pptx-swift) and proofs about its externally visible behaviour.

The script shells out to external tools, writes a JSON metadata stub next to
its input, and prints instructions.  We model:

  * the outside world as a `World`: a file store (path to text content), the
    set of existing directories, the lines printed to standard output, and
    the list of subprocess commands actually spawned, in order;
  * external processes through a `ProcOracle` giving, for each command line,
    whether the binary is missing or the exit code it returns;
  * Python exceptions that the script can raise or catch as `PyExc`;
  * POSIX paths as lists of components, with `pathlib`'s `name` / `stem` /
    `suffix` / `with_suffix` semantics reproduced from CPython
    (the suffix is the part of the final component from its last dot,
    provided that dot is neither the first nor the last character);
  * `json.dump(..., indent=2)` output, including `ensure_ascii` escaping,
    for the value shapes the script actually serializes (strings, ints and
    the empty list).
-/

namespace PptxRefs

/-- Outcome of attempting to execute one external command:
either the binary is absent (Python raises `FileNotFoundError`) or the
process runs and exits with the given code. -/
inductive ProcOutcome where
  | missing
  | exit (code : Nat)
deriving DecidableEq

/-- The environment of external tools: what happens when a given command
line is executed.  Deterministic within one run. -/
def ProcOracle : Type := List String → ProcOutcome

/-- The Python exceptions relevant to this script. -/
inductive PyExc where
  | calledProcessError (cmd : List String) (code : Nat)
  | fileNotFoundError (cmd : List String)
  | valueError
  | keyError
deriving DecidableEq

/-- A POSIX path, as its list of components (pathlib's `parts`). -/
abbrev Path : Type := List String

/-- The observable state of the machine the script runs on. -/
structure World where
  files : List (Path × String)
  dirs : List Path
  stdout : List String
  spawned : List (List String)
deriving DecidableEq

def World.empty : World := ⟨[], [], [], []⟩

/-- `print(s)`: append one line to standard output. -/
def printLn (w : World) (s : String) : World :=
  { w with stdout := w.stdout ++ [s] }

/-! ### Path semantics (CPython `pathlib`) -/

/-- Split a string at `/` characters (helper for parsing a path string). -/
def splitSlash : List Char → List Char → List String
  | [], acc => [String.mk acc.reverse]
  | c :: cs, acc =>
      if c = '/' then String.mk acc.reverse :: splitSlash cs []
      else splitSlash cs (c :: acc)

/-- `Path(s)`: parse a path string into its components; duplicate and
trailing slashes and `.` components are dropped, as pathlib does (so
`Path('.')` has no components and an empty name). -/
def parsePath (s : String) : Path :=
  (splitSlash s.toList []).filter (fun c => decide (c ≠ "") && decide (c ≠ "."))

/-- `str(path)`: the components joined by `/`. -/
def pathStr (p : Path) : String :=
  String.intercalate "/" p

/-- `path.name`: the final component (empty for an empty path). -/
def pathName (p : Path) : String :=
  (p.getLast?).getD ""

/-- Index of the last `.` in a list of characters (`name.rfind('.')`). -/
def lastDotIdx : List Char → Option Nat
  | [] => none
  | c :: cs =>
      match lastDotIdx cs with
      | some i => some (i + 1)
      | none => if c = '.' then some 0 else none

/-- `PurePath.suffix` of a file name: the part from the last dot on,
provided that dot is neither the first nor the last character. -/
def nameSuffix (name : String) : String :=
  let cs := name.toList
  match lastDotIdx cs with
  | some i => if 0 < i ∧ i < cs.length - 1 then String.mk (cs.drop i) else ""
  | none => ""

/-- `PurePath.stem` of a file name: the name with its suffix removed. -/
def nameStem (name : String) : String :=
  String.mk (name.toList.take (name.length - (nameSuffix name).length))

/-- `path.stem`. -/
def pathStem (p : Path) : String := nameStem (pathName p)

/-- `name.with_suffix(suffix)` at the level of the final component. -/
def withSuffixName (name : String) (suffix : String) : String :=
  let old := nameSuffix name
  if old = "" then name ++ suffix
  else String.mk (name.toList.take (name.length - old.length)) ++ suffix

/-- `path.with_suffix(suffix)`: replace the suffix of the final component.
`none` models the `ValueError` pathlib raises when the path has no name. -/
def withSuffix (p : Path) (suffix : String) : Option Path :=
  match p.getLast? with
  | none => none
  | some name =>
      if name = "" then none
      else some (p.dropLast ++ [withSuffixName name suffix])

/-- All nonempty prefixes of a path: the chain of directories
`mkdir(parents=True)` brings into existence. -/
def ancestors (p : Path) : List Path :=
  (List.range p.length).map (fun i => p.take (i + 1))

/-- Insert the directory and each of its ancestors, skipping ones that
already exist (`exist_ok=True`). -/
def insertAncestors (ds : List Path) (d : Path) : List Path :=
  (ancestors d).foldl (fun acc a => if acc.contains a then acc else acc ++ [a]) ds

/-- `Path.mkdir(parents=True, exist_ok=True)`. -/
def mkdirParents (w : World) (d : Path) : World :=
  { w with dirs := insertAncestors w.dirs d }

/-- `path.exists()`: the path names an existing file or directory. -/
def pathExists (w : World) (p : Path) : Bool :=
  (w.files.lookup p).isSome || w.dirs.contains p

/-- `open(p, 'w')` followed by a full write: create or overwrite. -/
def writeFile (w : World) (p : Path) (content : String) : World :=
  { w with files := (w.files.filter (fun kv => decide (kv.1 ≠ p))) ++ [(p, content)] }

/-! ### `json.dump(value, f, indent=2)` (CPython, default `ensure_ascii`) -/

/-- One lower-case hexadecimal digit. -/
def hexDigitChar (n : Nat) : Char :=
  if n < 10 then Char.ofNat (48 + n) else Char.ofNat (97 + (n - 10))

/-- A `\uXXXX` escape. -/
def uEscape (n : Nat) : String :=
  String.mk ['\\', 'u', hexDigitChar (n / 4096 % 16), hexDigitChar (n / 256 % 16),
             hexDigitChar (n / 16 % 16), hexDigitChar (n % 16)]

/-- How `json` escapes one character inside a string literal
(`ensure_ascii=True`): shorthands for the common escapes, printable ASCII
verbatim, everything else as `\uXXXX` (with surrogate pairs beyond the
basic plane). -/
def escapeChar (c : Char) : String :=
  if c = '\\' then "\\\\"
  else if c = '"' then "\\\""
  else if c = '\x08' then "\\b"
  else if c = '\x0c' then "\\f"
  else if c = '\n' then "\\n"
  else if c = '\x0d' then "\\r"
  else if c = '\t' then "\\t"
  else if 0x20 ≤ c.toNat ∧ c.toNat ≤ 0x7e then String.mk [c]
  else if c.toNat < 0x10000 then uEscape c.toNat
  else uEscape (0xd800 + (c.toNat - 0x10000) / 1024) ++ uEscape (0xdc00 + (c.toNat - 0x10000) % 1024)

/-- Concatenate a list of strings. -/
def concatAll : List String → String
  | [] => ""
  | s :: rest => s ++ concatAll rest

/-- JSON-escape the characters of a string. -/
def escStr (s : String) : String :=
  concatAll (s.toList.map escapeChar)

/-- Join strings with a separator between consecutive elements. -/
def joinSep (sep : String) : List String → String
  | [] => ""
  | [x] => x
  | x :: y :: rest => x ++ sep ++ joinSep sep (y :: rest)

/-- The JSON values this script serializes: strings, integers, and the
empty array (the `slides` placeholder). -/
inductive JVal where
  | str (s : String)
  | int (n : Int)
  | emptyArr
deriving DecidableEq

/-- Serialization of one atomic value. -/
def jValStr : JVal → String
  | .str s => "\"" ++ escStr s ++ "\""
  | .int n => toString n
  | .emptyArr => "[]"

/-- `json.dump` of a flat object with `indent=2`: keys in insertion order,
`": "` between key and value, items separated by `,` then a newline and
two spaces of indentation. -/
def dumpIndent2 (kvs : List (String × JVal)) : String :=
  match kvs with
  | [] => "\x7b\x7d"
  | _ => "\x7b\n  " ++
      joinSep ",\n  " (kvs.map (fun kv => "\"" ++ escStr kv.1 ++ "\": " ++ jValStr kv.2)) ++
      "\n\x7d"

/-! ### `subprocess.run` and the script's functions -/

/-- `subprocess.run(cmd, check=check)`: record the spawn attempt, then
either raise `FileNotFoundError` (binary absent), or — when `check` is set
and the exit code is nonzero — raise `CalledProcessError`. -/
def subprocessRun (env : ProcOracle) (check : Bool) (cmd : List String) (w : World) :
    World × Option PyExc :=
  let w' := { w with spawned := w.spawned ++ [cmd] }
  match env cmd with
  | .missing => (w', some (.fileNotFoundError cmd))
  | .exit code =>
      (w', if check = true ∧ code ≠ 0 then some (.calledProcessError cmd code) else none)

/-- The fixed tool table of `check_dependencies`. -/
def tools : List (String × List String) :=
  [("ImageMagick", ["convert", "--version"]), ("Ghostscript", ["gs", "--version"])]

/-- The exceptions caught by the probe's `except` clause:
`(subprocess.CalledProcessError, FileNotFoundError)`. -/
def caughtByProbe : PyExc → Bool
  | .calledProcessError _ _ => true
  | .fileNotFoundError _ => true
  | _ => false

/-- One iteration of the probe loop: try the version query with
`check=True`; on a caught exception mark the tool unavailable. -/
def probeTool (env : ProcOracle) (name : String) (cmd : List String) (w : World) :
    World × Except PyExc Bool :=
  match subprocessRun env true cmd w with
  | (w, none) => (printLn w ("✓ " ++ name ++ " is installed"), .ok true)
  | (w, some e) =>
      if caughtByProbe e then (printLn w ("✗ " ++ name ++ " is not installed"), .ok false)
      else (w, .error e)

/-- The probe loop over the tool table, accumulating the availability map. -/
def probeAll (env : ProcOracle) :
    List (String × List String) → List (String × Bool) → World →
    World × Except PyExc (List (String × Bool))
  | [], acc, w => (w, .ok acc)
  | (name, cmd) :: rest, acc, w =>
      match probeTool env name cmd w with
      | (w, .ok b) => probeAll env rest (acc ++ [(name, b)]) w
      | (w, .error e) => (w, .error e)

/-- `check_dependencies()`. -/
def check_dependencies (env : ProcOracle) (w : World) :
    World × Except PyExc (List (String × Bool)) :=
  probeAll env tools [] w

/-- The ImageMagick command `pdf_to_images` builds. -/
def convertCmd (pdf_path : String) (output_dir : Path) (dpi : Nat) : List String :=
  ["convert", "-density", toString dpi, "-quality", "100", pdf_path,
   pathStr (output_dir ++ ["slide-%d.png"])]

/-- `pdf_to_images(pdf_path, output_dir, dpi=300)`: create the output
directory (with parents), run the conversion with `check=True`, and catch
only `CalledProcessError`; any other exception propagates. -/
def pdf_to_images (env : ProcOracle) (pdf_path : String) (output_dir : Path)
    (w : World) (dpi : Nat := 300) : World × Option PyExc :=
  let w := mkdirParents w output_dir
  match subprocessRun env true (convertCmd pdf_path output_dir dpi) w with
  | (w, none) => (printLn w ("✓ Converted PDF to images in " ++ pathStr output_dir), none)
  | (w, some e) =>
      match e with
      | .calledProcessError _ _ => (printLn w "✗ Failed to convert PDF", none)
      | _ => (w, some e)

/-- The metadata record built by `generate_reference_data`, in the dict's
insertion order; `now` is `datetime.now().isoformat()`. -/
def metadataKVs (pptx_path : Path) (now : String) : List (String × JVal) :=
  [("source", .str (pathStr pptx_path)),
   ("generated", .str now),
   ("method", .str "manual"),
   ("dpi", .int 300),
   ("slides", .emptyArr)]

/-- `generate_reference_data(pptx_path)`: derive the output path with
`.with_suffix('.json')`, dump the record with `indent=2`, report.  Returns
the written path, or `none` when `with_suffix` raises (no file name). -/
def generate_reference_data (now : String) (pptx_path : Path) (w : World) :
    World × Option Path :=
  match withSuffix pptx_path ".json" with
  | none => (w, none)
  | some output_path =>
      let w := writeFile w output_path (dumpIndent2 (metadataKVs pptx_path now))
      (printLn w ("✓ Generated metadata: " ++ pathStr output_path), some output_path)

/-- The output directory `main` derives: `tests/references/<stem>`. -/
def outputDir (pptx_path : Path) : Path :=
  ["tests", "references"] ++ [pathStem pptx_path]

/-- The LibreOffice instruction line `main` prints (but never executes). -/
def sofficeLine (pptx_path : Path) : String :=
  "soffice --headless --convert-to pdf --outdir " ++ pathStr (outputDir pptx_path)
    ++ " " ++ pathStr pptx_path

/-- `main()`: banner, dependency probe, argument and existence checks, the
output directory, the metadata writer, then printed-only instructions. -/
def main (env : ProcOracle) (now : String) (argv : List String) (w : World) :
    World × Option PyExc :=
  let w := printLn w "PPTX Test Reference Generator"
  let w := printLn w (String.mk (List.replicate 40 '='))
  match check_dependencies env w with
  | (w, .error e) => (w, some e)
  | (w, .ok deps) =>
    if argv.length < 2 then
      let w := printLn w "\nUsage: python3 generate_test_references.py <pptx_file>"
      let w := printLn w "\nThis script demonstrates how to generate reference images"
      let w := printLn w "when LibreOffice is not available."
      (w, none)
    else
      let pptx_path := parsePath (argv.getD 1 "")
      if pathExists w pptx_path = false then
        (printLn w ("Error: File not found: " ++ pathStr pptx_path), none)
      else
        let output_dir := outputDir pptx_path
        let w := mkdirParents w output_dir
        let w := printLn w ("\nProcessing: " ++ pathStr pptx_path)
        let w := printLn w ("Output directory: " ++ pathStr output_dir)
        match generate_reference_data now pptx_path w with
        | (w, none) => (w, some .valueError)
        | (w, some _) =>
          let w := printLn w "\nLibreOffice command (if available):"
          let w := printLn w (sofficeLine pptx_path)
          match deps.lookup "ImageMagick" with
          | none => (w, some .keyError)
          | some im =>
            let w :=
              if im then
                let w := printLn w "\nTo convert existing PDFs to images:"
                printLn w ("convert -density 300 <pdf_file> " ++ pathStr (outputDir pptx_path) ++ "/slide-%d.png")
              else w
            (printLn w "\n✓ Reference generation setup complete", none)

/-! ### Derived definitions and concrete instances -/

/-- The ImageMagick version-query command. -/
def imCmd : List String := ["convert", "--version"]

/-- The Ghostscript version-query command. -/
def gsCmd : List String := ["gs", "--version"]

/-- Availability of a tool under an oracle: callable and exiting 0. -/
def toolAvail (env : ProcOracle) (cmd : List String) : Bool :=
  match env cmd with
  | .exit 0 => true
  | _ => false

/-- The status line the probe prints for one tool. -/
def probeMsg (name : String) (b : Bool) : String :=
  if b then "✓ " ++ name ++ " is installed" else "✗ " ++ name ++ " is not installed"

/-- The metadata path `main` writes for a given input path. -/
def metadataPath (p : Path) : Path :=
  p.dropLast ++ [withSuffixName (pathName p) ".json"]

/-- Every character of the string is printable ASCII or an ASCII control
character: its codepoint is at most `0x7e`. -/
def asciiStr (s : String) : Prop := ∀ c ∈ s.toList, c.toNat ≤ 0x7e

/-! ### Concrete instances used by witnesses and counterexamples -/

/-- An environment in which no external tool is installed. -/
def envAllMissing : ProcOracle := fun _ => ProcOutcome.missing

/-- An environment in which every external command succeeds. -/
def envAllOk : ProcOracle := fun _ => ProcOutcome.exit 0

/-- A world holding one input file `a.pptx`. -/
def wOneFile : World := ⟨[(["a.pptx"], "x")], [], [], []⟩

/-- A world in which the current directory (the empty path, pathlib's
`Path('.')`) exists as a directory. -/
def wDotDir : World := ⟨[], [[]], [], []⟩

/-- An environment in which every external command exits with status 1. -/
def envConvertFails : ProcOracle := fun _ => ProcOutcome.exit 1

/-- The second string is a suffix of the first. -/
def strEndsWith (s t : String) : Bool := t.toList.isSuffixOf s.toList

/-! ### General lemmas about the embedding -/

lemma checkDeps_eq (env : ProcOracle) (w : World) :
    check_dependencies env w =
      ({ w with
          stdout := w.stdout ++ [probeMsg "ImageMagick" (toolAvail env imCmd),
                                 probeMsg "Ghostscript" (toolAvail env gsCmd)],
          spawned := w.spawned ++ [imCmd, gsCmd] },
       .ok [("ImageMagick", toolAvail env imCmd), ("Ghostscript", toolAvail env gsCmd)]) := by
  rcases h1 : env ["convert", "--version"] with _ | (_ | c1) <;>
    rcases h2 : env ["gs", "--version"] with _ | (_ | c2) <;>
    simp [check_dependencies, tools, probeAll, probeTool, subprocessRun, caughtByProbe,
          printLn, toolAvail, probeMsg, imCmd, gsCmd, h1, h2]

lemma lookup_append_single {p : Path} (l : List (Path × String)) (c : String)
    (h : ∀ kv ∈ l, kv.1 ≠ p) : (l ++ [(p, c)]).lookup p = some c := by
  induction l with
  | nil => simp [List.lookup]
  | cons kv rest ih =>
      have hk : kv.1 ≠ p := h kv (List.mem_cons_self kv rest)
      have : (p == kv.1) = false := by
        simp [beq_iff_eq]
        exact fun he => hk he.symm
      simp [List.lookup, this]
      exact ih (fun kv' hkv' => h kv' (List.mem_cons_of_mem kv hkv'))

lemma writeFile_lookup_self (w : World) (p : Path) (c : String) :
    (writeFile w p c).files.lookup p = some c := by
  apply lookup_append_single
  intro kv hkv
  have := List.of_mem_filter hkv
  simpa using this

lemma lookup_filter_append (p q : Path) (c : String) (h : q ≠ p) (l : List (Path × String)) :
    ((l.filter (fun kv => decide (kv.1 ≠ p))) ++ [(p, c)]).lookup q = l.lookup q := by
  have hqp : (q == p) = false := beq_eq_false_iff_ne.mpr h
  induction l with
  | nil => simp [List.lookup, hqp]
  | cons kv rest ih =>
      rcases kv with ⟨k, v⟩
      by_cases hk : k = p
      · simpa [List.filter_cons, hk, List.lookup, hqp] using ih
      · by_cases hq : q = k
        · simp [List.filter_cons, hk, List.lookup, hq]
        · have hq' : (q == k) = false := beq_eq_false_iff_ne.mpr hq
          simpa [List.filter_cons, hk, List.lookup, hq'] using ih

lemma writeFile_lookup_ne (w : World) (p : Path) (c : String) (q : Path) (h : q ≠ p) :
    (writeFile w p c).files.lookup q = w.files.lookup q :=
  lookup_filter_append p q c h w.files

lemma mem_foldl_insert_of_mem (xs : List Path) (ds : List Path) (a : Path) (h : a ∈ ds) :
    a ∈ xs.foldl (fun acc x => if acc.contains x then acc else acc ++ [x]) ds := by
  induction xs generalizing ds with
  | nil => exact h
  | cons x rest ih =>
      simp only [List.foldl_cons]
      by_cases hc : ds.contains x
      · simp only [hc, if_pos rfl]
        exact ih ds h
      · simp only [hc, Bool.false_eq_true, if_false]
        exact ih (ds ++ [x]) (List.mem_append_left _ h)

lemma mem_insertAncestors_of_mem (ds : List Path) (d : Path) (a : Path) (h : a ∈ ds) :
    a ∈ insertAncestors ds d :=
  mem_foldl_insert_of_mem (ancestors d) ds a h

lemma mem_foldl_insert (xs : List Path) (ds : List Path) (a : Path) (h : a ∈ xs) :
    a ∈ xs.foldl (fun acc x => if acc.contains x then acc else acc ++ [x]) ds := by
  induction xs generalizing ds with
  | nil => cases h
  | cons x rest ih =>
      simp only [List.foldl_cons]
      rcases List.mem_cons.mp h with rfl | hmem
      · by_cases hc : ds.contains a
        · have ha : a ∈ ds := by simpa [List.contains, List.elem_iff] using hc
          simp only [hc, if_pos rfl]
          exact mem_foldl_insert_of_mem rest ds a ha
        · have ha : a ∈ ds ++ [a] := List.mem_append_right _ (List.mem_singleton.mpr rfl)
          simp only [hc, Bool.false_eq_true, if_false]
          exact mem_foldl_insert_of_mem rest (ds ++ [a]) a ha
      · by_cases hc : ds.contains x
        · simp only [hc, if_pos rfl]
          exact ih ds hmem
        · simp only [hc, Bool.false_eq_true, if_false]
          exact ih (ds ++ [x]) hmem

lemma mem_insertAncestors_self (ds : List Path) (d : Path) (a : Path) (h : a ∈ ancestors d) :
    a ∈ insertAncestors ds d :=
  mem_foldl_insert (ancestors d) ds a h

lemma withSuffix_some (p : Path) (hn : pathName p ≠ "") :
    withSuffix p ".json" = some (p.dropLast ++ [withSuffixName (pathName p) ".json"]) := by
  cases hp : p.getLast? with
  | none =>
      exact absurd (by simp [pathName, hp]) hn
  | some name =>
      have hname : name ≠ "" := by
        intro he
        exact hn (by simp [pathName, hp, he])
      simp [withSuffix, hp, hname, pathName]

lemma lookup_cons_self {β : Type} (k : String) (b : β) (rest : List (String × β)) :
    List.lookup k ((k, b) :: rest) = some b := by
  simp [List.lookup]

lemma lookup_filter_append_self (p : Path) (c : String) (l : List (Path × String)) :
    ((l.filter (fun kv => decide (kv.1 ≠ p))) ++ [(p, c)]).lookup p = some c := by
  apply lookup_append_single
  intro kv hkv
  have := List.of_mem_filter hkv
  simpa using this

/-- What one successful run of `main` does: no exception, the metadata file
written at `metadataPath`, no other file touched, exactly the output
directory chain created, exactly the two version probes spawned, and the
LibreOffice command printed rather than executed. -/
lemma main_run_spec (env : ProcOracle) (now : String) (w : World) (prog s : String)
    (hn : pathName (parsePath s) ≠ "")
    (hex : pathExists w (parsePath s) = true) :
    (main env now [prog, s] w).2 = none ∧
    (main env now [prog, s] w).1.files.lookup (metadataPath (parsePath s))
      = some (dumpIndent2 (metadataKVs (parsePath s) now)) ∧
    (∀ q : Path, q ≠ metadataPath (parsePath s) →
        (main env now [prog, s] w).1.files.lookup q = w.files.lookup q) ∧
    (main env now [prog, s] w).1.dirs = insertAncestors w.dirs (outputDir (parsePath s)) ∧
    (main env now [prog, s] w).1.spawned = w.spawned ++ [imCmd, gsCmd] ∧
    sofficeLine (parsePath s) ∈ (main env now [prog, s] w).1.stdout := by
  have harg : ([prog, s].getD 1 "") = s := rfl
  have hws := withSuffix_some (parsePath s) hn
  have hex' : ((w.files.lookup (parsePath s)).isSome || w.dirs.contains (parsePath s)) = true :=
    hex
  cases htool : toolAvail env ["convert", "--version"] <;>
  · simp only [main]
    rw [checkDeps_eq]
    simp only [printLn, pathExists, generate_reference_data, mkdirParents, writeFile,
               List.length_cons, List.length_nil, harg, hws, hex', htool, imCmd, gsCmd,
               lookup_cons_self, List.append_assoc, List.cons_append, List.nil_append]
    simp only [show ¬ (1 + 1 < 2) by omega, if_false]
    refine ⟨?_, ?_, ?_, ?_, ?_, ?_⟩
    · rfl
    · simpa [metadataPath] using
        lookup_filter_append_self (metadataPath (parsePath s))
          (dumpIndent2 (metadataKVs (parsePath s) now)) w.files
    · intro q hq
      simpa [metadataPath] using
        lookup_filter_append (metadataPath (parsePath s)) q
          (dumpIndent2 (metadataKVs (parsePath s) now)) hq w.files
    · rfl
    · rfl
    · simp [sofficeLine]

lemma getLast?_of_pathName (p : Path) (h : pathName p ≠ "") :
    p.getLast? = some (pathName p) := by
  cases hp : p.getLast? with
  | none => exact absurd (by simp [pathName, hp]) h
  | some x => simp [pathName, hp]

lemma dropLast_append_of_getLast? (p : Path) (x : String) (h : p.getLast? = some x) :
    p.dropLast ++ [x] = p := by
  induction p with
  | nil => cases h
  | cons a rest ih =>
      cases rest with
      | nil =>
          simp only [List.getLast?_singleton, Option.some.injEq] at h
          simp [h]
      | cons b q =>
          rw [List.getLast?_cons_cons] at h
          simp only [List.dropLast_cons₂, List.cons_append]
          rw [ih h]

lemma lastDotIdx_append_json (xs : List Char) :
    lastDotIdx (xs ++ ['.', 'j', 's', 'o', 'n']) = some xs.length := by
  induction xs with
  | nil => decide
  | cons c cs ih => simp [lastDotIdx, ih]

lemma toList_append_json (stem : String) :
    (stem ++ ".json").toList = stem.toList ++ ['.', 'j', 's', 'o', 'n'] := by
  show (stem ++ ".json").data = stem.data ++ ['.', 'j', 's', 'o', 'n']
  rw [String.data_append]

lemma toList_length_pos (stem : String) (hs : stem ≠ "") : 0 < stem.toList.length := by
  cases hst : stem.toList with
  | nil =>
      exfalso
      apply hs
      cases stem with
      | mk data =>
          have : data = [] := hst
          rw [this]
  | cons c cs => simp

lemma nameSuffix_append_json (stem : String) (hs : stem ≠ "") :
    nameSuffix (stem ++ ".json") = ".json" := by
  unfold nameSuffix
  rw [toList_append_json]
  dsimp only
  rw [lastDotIdx_append_json]
  dsimp only
  have hlen : 0 < stem.toList.length := toList_length_pos stem hs
  rw [if_pos ⟨hlen, by simp only [List.length_append, List.length_cons, List.length_nil]; omega⟩]
  rw [List.drop_left]

lemma string_mk_toList (s : String) : String.mk s.toList = s := rfl

lemma withSuffixName_json_self (stem : String) (hs : stem ≠ "") :
    withSuffixName (stem ++ ".json") ".json" = stem ++ ".json" := by
  unfold withSuffixName
  rw [nameSuffix_append_json stem hs]
  rw [if_neg (by decide)]
  apply String.ext
  rw [String.data_append]
  show ((stem ++ ".json").toList.take ((stem ++ ".json").length - (".json" : String).length))
      ++ (".json" : String).data = (stem ++ ".json").data
  rw [toList_append_json]
  have h5 : (stem ++ ".json").length - (".json" : String).length = stem.toList.length := by
    rw [String.length_append]
    show stem.length + 5 - 5 = stem.toList.length
    have : stem.length = stem.toList.length := rfl
    omega
  rw [h5, List.take_left]
  show stem.data ++ ['.', 'j', 's', 'o', 'n'] = (stem ++ ".json").data
  rw [String.data_append]

/-- `main` with fewer than two `argv` entries: usage text, no exception,
no filesystem change. -/
lemma main_usage_spec (env : ProcOracle) (now : String) (w : World) (argv : List String)
    (h : argv.length < 2) :
    (main env now argv w).2 = none ∧
    (main env now argv w).1.files = w.files ∧
    (main env now argv w).1.dirs = w.dirs ∧
    "\nUsage: python3 generate_test_references.py <pptx_file>"
      ∈ (main env now argv w).1.stdout := by
  simp only [main]
  rw [checkDeps_eq]
  simp only [printLn]
  rw [if_pos h]
  exact ⟨rfl, rfl, rfl, by simp⟩

/-- `main` ignores `argv` entries beyond the first positional argument. -/
lemma main_extra_args (env : ProcOracle) (now : String) (w : World) (prog s : String)
    (rest : List String) :
    main env now (prog :: s :: rest) w = main env now [prog, s] w := by
  simp only [main]
  rw [checkDeps_eq]
  simp only [printLn, List.length_cons, List.length_nil]
  rw [if_neg (show ¬ rest.length + 1 + 1 < 2 by omega),
      if_neg (show ¬ 0 + 1 + 1 < 2 by omega)]
  rfl

/-! ### The serialized metadata is plain ASCII (hence valid UTF-8 text) -/

lemma asciiStr_append (a b : String) (ha : asciiStr a) (hb : asciiStr b) :
    asciiStr (a ++ b) := by
  intro c hc
  have : c ∈ a.data ++ b.data := by
    simpa [String.toList, String.data_append] using hc
  rcases List.mem_append.mp this with h | h
  · exact ha c h
  · exact hb c h

lemma asciiStr_of_decide (s : String)
    (h : (s.toList.all (fun c => decide (c.toNat ≤ 0x7e))) = true) :
    asciiStr s := by
  intro c hc
  have := List.all_eq_true.mp h c hc
  simpa using this

lemma asciiStr_concatAll (l : List String) (h : ∀ s ∈ l, asciiStr s) :
    asciiStr (concatAll l) := by
  induction l with
  | nil =>
      intro c hc
      rw [show (concatAll []).toList = [] from rfl] at hc
      cases hc
  | cons s rest ih =>
      exact asciiStr_append s (concatAll rest)
        (h s (List.mem_cons_self s rest))
        (ih (fun t ht => h t (List.mem_cons_of_mem s ht)))

lemma hexDigitChar_ascii (n : Nat) (h : n < 16) : (hexDigitChar n).toNat ≤ 0x7e := by
  interval_cases n <;> decide

lemma uEscape_ascii (n : Nat) : asciiStr (uEscape n) := by
  intro c hc
  rw [show (uEscape n).toList =
      ['\\', 'u', hexDigitChar (n / 4096 % 16), hexDigitChar (n / 256 % 16),
       hexDigitChar (n / 16 % 16), hexDigitChar (n % 16)] from rfl] at hc
  simp only [List.mem_cons, List.not_mem_nil, or_false] at hc
  rcases hc with rfl | rfl | rfl | rfl | rfl | rfl
  · decide
  · decide
  · exact hexDigitChar_ascii _ (Nat.mod_lt _ (by omega))
  · exact hexDigitChar_ascii _ (Nat.mod_lt _ (by omega))
  · exact hexDigitChar_ascii _ (Nat.mod_lt _ (by omega))
  · exact hexDigitChar_ascii _ (Nat.mod_lt _ (by omega))

lemma escapeChar_ascii (c : Char) : asciiStr (escapeChar c) := by
  unfold escapeChar
  split
  · exact asciiStr_of_decide _ (by decide)
  split
  · exact asciiStr_of_decide _ (by decide)
  split
  · exact asciiStr_of_decide _ (by decide)
  split
  · exact asciiStr_of_decide _ (by decide)
  split
  · exact asciiStr_of_decide _ (by decide)
  split
  · exact asciiStr_of_decide _ (by decide)
  split
  · exact asciiStr_of_decide _ (by decide)
  split
  · next hrange =>
      intro d hd
      rw [show (String.mk [c]).toList = [c] from rfl] at hd
      rcases List.mem_singleton.mp hd with rfl
      exact hrange.2
  split
  · exact uEscape_ascii _
  · exact asciiStr_append _ _ (uEscape_ascii _) (uEscape_ascii _)

lemma escStr_ascii (s : String) : asciiStr (escStr s) := by
  apply asciiStr_concatAll
  intro t ht
  rcases List.mem_map.mp ht with ⟨c, _, rfl⟩
  exact escapeChar_ascii c

lemma asciiStr_joinSep (sep : String) (l : List String) (hsep : asciiStr sep)
    (h : ∀ s ∈ l, asciiStr s) : asciiStr (joinSep sep l) := by
  induction l with
  | nil =>
      intro c hc
      rw [show (joinSep sep []).toList = [] from rfl] at hc
      cases hc
  | cons s rest ih =>
      cases rest with
      | nil => exact h s (List.mem_cons_self s [])
      | cons t ts =>
          refine asciiStr_append _ _ (asciiStr_append _ _ ?_ hsep) ?_
          · exact h s (List.mem_cons_self s (t :: ts))
          · exact ih (fun u hu => h u (List.mem_cons_of_mem s hu))

lemma metadata_dump_ascii (p : Path) (now : String) :
    asciiStr (dumpIndent2 (metadataKVs p now)) := by
  have hquote : asciiStr "\"" := asciiStr_of_decide _ (by decide)
  have hsep : asciiStr ",\n  " := asciiStr_of_decide _ (by decide)
  simp only [dumpIndent2, metadataKVs, List.map_cons, List.map_nil, jValStr]
  refine asciiStr_append _ _ (asciiStr_append _ _ (asciiStr_of_decide _ (by decide)) ?_)
    (asciiStr_of_decide _ (by decide))
  refine asciiStr_joinSep _ _ hsep ?_
  intro s hs
  simp only [List.mem_cons, List.not_mem_nil, or_false] at hs
  rcases hs with rfl | rfl | rfl | rfl | rfl
  · refine asciiStr_append _ _ (asciiStr_append _ _ (asciiStr_append _ _ hquote
      (asciiStr_of_decide _ (by decide))) (asciiStr_of_decide _ (by decide))) ?_
    exact asciiStr_append _ _ (asciiStr_append _ _ hquote (escStr_ascii _)) hquote
  · refine asciiStr_append _ _ (asciiStr_append _ _ (asciiStr_append _ _ hquote
      (asciiStr_of_decide _ (by decide))) (asciiStr_of_decide _ (by decide))) ?_
    exact asciiStr_append _ _ (asciiStr_append _ _ hquote (escStr_ascii _)) hquote
  · exact asciiStr_of_decide _ (by decide)
  · exact asciiStr_of_decide _ (by decide)
  · exact asciiStr_of_decide _ (by decide)

/-- `with_suffix` on a path with an empty name raises (`none`). -/
lemma withSuffix_none (p : Path) (hn : pathName p = "") : withSuffix p ".json" = none := by
  unfold withSuffix
  cases hp : p.getLast? with
  | none => rfl
  | some name =>
      have hname : name = "" := by simpa [pathName, hp] using hn
      simp [hname]

/-- A run of `main` on an existing input whose parsed path has no file
name (for example `.`): the probes run, nothing is written, and the
`ValueError` from `with_suffix` propagates. -/
lemma main_empty_name_spec (env : ProcOracle) (now : String) (w : World) (prog s : String)
    (hn : pathName (parsePath s) = "")
    (hex : pathExists w (parsePath s) = true) :
    (main env now [prog, s] w).1.spawned = w.spawned ++ [imCmd, gsCmd] ∧
    (main env now [prog, s] w).1.files = w.files ∧
    (main env now [prog, s] w).2 = some PyExc.valueError := by
  have harg : ([prog, s].getD 1 "") = s := rfl
  have hws := withSuffix_none (parsePath s) hn
  have hex' : ((w.files.lookup (parsePath s)).isSome || w.dirs.contains (parsePath s)) = true :=
    hex
  simp only [main]
  rw [checkDeps_eq]
  simp only [printLn, pathExists, generate_reference_data, mkdirParents, writeFile,
             List.length_cons, List.length_nil, harg, hws, hex', imCmd, gsCmd,
             List.append_assoc, List.cons_append, List.nil_append]
  simp only [show ¬ (1 + 1 < 2) by omega, if_false]
  exact ⟨rfl, rfl, rfl⟩

/-- The output directory chain exists after `pdf_to_images`, whatever the
conversion outcome. -/
lemma pdf_to_images_dirs (env : ProcOracle) (pdf : String) (out : Path) (w : World)
    (dpi : Nat) :
    (pdf_to_images env pdf out w dpi).1.dirs = insertAncestors w.dirs out := by
  rcases h : env (convertCmd pdf out dpi) with _ | (_ | c) <;>
    simp [pdf_to_images, subprocessRun, mkdirParents, printLn, h]

/-! ### The claims -/

/-- C1 counterexample: `.` is an existing input path, yet running the tool
on it produces no metadata file anywhere: the writer's `with_suffix` call
raises on the empty file name and the run dies with the exception. -/
theorem metadata_missing_for_dot_input :
    pathExists wDotDir (parsePath ".") = true ∧
    (main envAllMissing "T" ["prog", "."] wDotDir).1.files = [] ∧
    (main envAllMissing "T" ["prog", "."] wDotDir).2 = some PyExc.valueError := by
  refine ⟨by decide, by decide, by decide⟩

/-- C1 (amended): for every invocation on an existing input path whose
final component is a nonempty name, a metadata file is produced at the
input path with its extension replaced by `.json`, and the stored record
has exactly the keys source, generated, method, dpi, slides in that
order, with method `"manual"`, dpi `300`, and slides the empty list. -/
theorem metadata_stub_written_for_existing_input (env : ProcOracle) (now : String)
    (w : World) (prog s : String) (hn : pathName (parsePath s) ≠ "")
    (hex : pathExists w (parsePath s) = true) :
    withSuffix (parsePath s) ".json" = some (metadataPath (parsePath s)) ∧
    (main env now [prog, s] w).1.files.lookup (metadataPath (parsePath s))
      = some (dumpIndent2 (metadataKVs (parsePath s) now)) ∧
    (metadataKVs (parsePath s) now).map Prod.fst
      = ["source", "generated", "method", "dpi", "slides"] ∧
    (metadataKVs (parsePath s) now).lookup "method" = some (JVal.str "manual") ∧
    (metadataKVs (parsePath s) now).lookup "dpi" = some (JVal.int 300) ∧
    (metadataKVs (parsePath s) now).lookup "slides" = some JVal.emptyArr := by
  obtain ⟨-, h2, -, -, -, -⟩ := main_run_spec env now w prog s hn hex
  exact ⟨withSuffix_some _ hn, h2, rfl, rfl, rfl, rfl⟩

/-- C1 witness: the amended theorem applied to a concrete run. -/
theorem metadata_stub_written_for_existing_input_witness :
    (main envAllMissing "T" ["prog", "a.pptx"] wOneFile).1.files.lookup
        (metadataPath (parsePath "a.pptx"))
      = some (dumpIndent2 (metadataKVs (parsePath "a.pptx") "T")) :=
  (metadata_stub_written_for_existing_input envAllMissing "T" wOneFile "prog" "a.pptx"
      (by decide) (by decide)).2.1

/-- C2 counterexample: with two positional arguments the entry point does
not reject the invocation: no usage text appears and the first argument is
processed (its metadata stub is written). -/
theorem extra_args_not_rejected :
    ¬ ("\nUsage: python3 generate_test_references.py <pptx_file>"
        ∈ (main envAllMissing "T" ["prog", "a.pptx", "b.pptx"] wOneFile).1.stdout) ∧
    (main envAllMissing "T" ["prog", "a.pptx", "b.pptx"] wOneFile).1.files.lookup
        (["a.json"] : Path) = some (dumpIndent2 (metadataKVs ["a.pptx"] "T")) := by
  refine ⟨by decide, by decide⟩

/-- C2 (amended): the entry point validates that at least one positional
argument is supplied; when none is, it prints the usage text and returns
without an exception and without touching the filesystem; positional
arguments beyond the first are ignored. -/
theorem usage_requires_at_least_one_arg (env : ProcOracle) (now : String) (w : World) :
    (∀ argv : List String, argv.length < 2 →
      (main env now argv w).2 = none ∧
      (main env now argv w).1.files = w.files ∧
      (main env now argv w).1.dirs = w.dirs ∧
      "\nUsage: python3 generate_test_references.py <pptx_file>"
        ∈ (main env now argv w).1.stdout) ∧
    (∀ prog s : String, ∀ rest : List String,
      main env now (prog :: s :: rest) w = main env now [prog, s] w) :=
  ⟨fun argv h => main_usage_spec env now w argv h,
   fun prog s rest => main_extra_args env now w prog s rest⟩

/-- C2 witness: the amended theorem applied to concrete invocations. -/
theorem usage_requires_at_least_one_arg_witness :
    ("\nUsage: python3 generate_test_references.py <pptx_file>"
        ∈ (main envAllMissing "T" ["prog"] World.empty).1.stdout) ∧
    main envAllMissing "T" ["prog", "a.pptx", "b.pptx"] World.empty
      = main envAllMissing "T" ["prog", "a.pptx"] World.empty :=
  ⟨((usage_requires_at_least_one_arg envAllMissing "T" World.empty).1 ["prog"]
      (by decide)).2.2.2,
   (usage_requires_at_least_one_arg envAllMissing "T" World.empty).2 "prog" "a.pptx"
      ["b.pptx"]⟩

/-- C3: on a non-existent input path the run creates no file and no
directory, prints the error line, and returns without an exception (so the
exit status is the same zero as on success). -/
theorem missing_input_leaves_world_unchanged (env : ProcOracle) (now : String) (w : World)
    (prog s : String) (hne : pathExists w (parsePath s) = false) :
    (main env now [prog, s] w).2 = none ∧
    (main env now [prog, s] w).1.files = w.files ∧
    (main env now [prog, s] w).1.dirs = w.dirs ∧
    ("Error: File not found: " ++ pathStr (parsePath s))
      ∈ (main env now [prog, s] w).1.stdout := by
  have harg : ([prog, s].getD 1 "") = s := rfl
  have hne' : ((w.files.lookup (parsePath s)).isSome || w.dirs.contains (parsePath s)) = false :=
    hne
  simp only [main]
  rw [checkDeps_eq]
  simp only [printLn, pathExists, List.length_cons, List.length_nil, harg, hne']
  simp only [show ¬ (1 + 1 < 2) by omega, if_false]
  refine ⟨rfl, rfl, rfl, ?_⟩
  simp

/-- C3 witness: the theorem applied to a concrete non-existent input. -/
theorem missing_input_leaves_world_unchanged_witness :
    (main envAllMissing "T" ["prog", "nope.pptx"] World.empty).1.files = [] ∧
    (main envAllMissing "T" ["prog", "nope.pptx"] World.empty).1.dirs = [] ∧
    ("Error: File not found: " ++ pathStr (parsePath "nope.pptx"))
      ∈ (main envAllMissing "T" ["prog", "nope.pptx"] World.empty).1.stdout :=
  ⟨(missing_input_leaves_world_unchanged envAllMissing "T" World.empty "prog" "nope.pptx"
      (by decide)).2.1,
   (missing_input_leaves_world_unchanged envAllMissing "T" World.empty "prog" "nope.pptx"
      (by decide)).2.2.1,
   (missing_input_leaves_world_unchanged envAllMissing "T" World.empty "prog" "nope.pptx"
      (by decide)).2.2.2⟩

/-- C4: the metadata writer derives its output path by replacing the
input's extension with `.json`, and writes the record serialized with the
keys in insertion order (source, generated, method, dpi, slides), pure
ASCII (hence valid UTF-8 text), and two-space indentation — exhibited in
full on a representative input in the last conjunct. -/
theorem metadata_writer_output (now : String) (p : Path) (w : World)
    (hn : pathName p ≠ "") :
    (generate_reference_data now p w).2 = some (metadataPath p) ∧
    withSuffix p ".json" = some (metadataPath p) ∧
    (generate_reference_data now p w).1.files.lookup (metadataPath p)
      = some (dumpIndent2 (metadataKVs p now)) ∧
    (metadataKVs p now).map Prod.fst = ["source", "generated", "method", "dpi", "slides"] ∧
    asciiStr (dumpIndent2 (metadataKVs p now)) ∧
    dumpIndent2 (metadataKVs ["dir", "deck.pptx"] "2024-06-01T12:00:00")
      = "\x7b\n  \"source\": \"dir/deck.pptx\",\n  \"generated\": \"2024-06-01T12:00:00\",\n  \"method\": \"manual\",\n  \"dpi\": 300,\n  \"slides\": []\n\x7d" := by
  have hws := withSuffix_some p hn
  refine ⟨?_, hws, ?_, rfl, metadata_dump_ascii p now, by decide⟩
  · simp [generate_reference_data, hws, metadataPath]
  · simp only [generate_reference_data, hws]
    exact lookup_filter_append_self (metadataPath p) (dumpIndent2 (metadataKVs p now)) w.files

/-- C4 witness: the theorem applied to a concrete input. -/
theorem metadata_writer_output_witness :
    (generate_reference_data "T" ["a.pptx"] World.empty).2 = some (metadataPath ["a.pptx"]) ∧
    (generate_reference_data "T" ["a.pptx"] World.empty).1.files.lookup
        (metadataPath ["a.pptx"])
      = some (dumpIndent2 (metadataKVs ["a.pptx"] "T")) :=
  ⟨(metadata_writer_output "T" ["a.pptx"] World.empty (by decide)).1,
   (metadata_writer_output "T" ["a.pptx"] World.empty (by decide)).2.2.1⟩

/-- C5: the dependency probe never raises: for every environment it
returns a boolean for each of the two tools, where a missing binary or a
non-zero exit yields `false` and a successful version query yields
`true`. -/
theorem dependency_probe_total (env : ProcOracle) (w : World) :
    (check_dependencies env w).2 =
      Except.ok [("ImageMagick", toolAvail env imCmd), ("Ghostscript", toolAvail env gsCmd)] ∧
    (∀ cmd : List String, env cmd = ProcOutcome.missing → toolAvail env cmd = false) ∧
    (∀ cmd : List String, ∀ k : Nat,
      env cmd = ProcOutcome.exit (k + 1) → toolAvail env cmd = false) ∧
    (∀ cmd : List String, env cmd = ProcOutcome.exit 0 → toolAvail env cmd = true) := by
  refine ⟨by rw [checkDeps_eq], ?_, ?_, ?_⟩
  · intro cmd h
    simp [toolAvail, h]
  · intro cmd k h
    simp [toolAvail, h]
  · intro cmd h
    simp [toolAvail, h]

/-- C5 witness: the theorem applied to concrete environments. -/
theorem dependency_probe_total_witness :
    (check_dependencies envAllMissing World.empty).2 =
      Except.ok [("ImageMagick", false), ("Ghostscript", false)] ∧
    toolAvail envAllMissing ["convert", "--version"] = false ∧
    toolAvail envAllOk ["convert", "--version"] = true :=
  ⟨(dependency_probe_total envAllMissing World.empty).1,
   (dependency_probe_total envAllMissing World.empty).2.1 ["convert", "--version"] rfl,
   (dependency_probe_total envAllOk World.empty).2.2.2 ["convert", "--version"] rfl⟩

/-- C6 counterexample: on the existing input `.` the default flow does not
reach the instruction-printing step: the LibreOffice command line is never
printed because the metadata writer's exception aborts the run first. -/
theorem dot_input_skips_instruction_print :
    pathExists wDotDir (parsePath ".") = true ∧
    ¬ (sofficeLine (parsePath ".")
        ∈ (main envAllMissing "T" ["prog", "."] wDotDir).1.stdout) ∧
    (main envAllMissing "T" ["prog", "."] wDotDir).2 = some PyExc.valueError := by
  refine ⟨by decide, by decide, by decide⟩

/-- C6 (amended): for every existing input path the default flow spawns
only the two version probes — never a conversion subprocess; when the
input's final component is a nonempty name it moreover creates exactly the
output-directory chain, writes the metadata stub, and prints (rather than
executes) the LibreOffice conversion command. -/
theorem default_flow_spawns_only_probes (env : ProcOracle) (now : String) (w : World)
    (prog s : String) (hex : pathExists w (parsePath s) = true) :
    (main env now [prog, s] w).1.spawned = w.spawned ++ [imCmd, gsCmd] ∧
    (∀ cmd ∈ (main env now [prog, s] w).1.spawned,
      cmd ∈ w.spawned ∨ cmd = imCmd ∨ cmd = gsCmd) ∧
    (pathName (parsePath s) ≠ "" →
      (main env now [prog, s] w).1.dirs = insertAncestors w.dirs (outputDir (parsePath s)) ∧
      sofficeLine (parsePath s) ∈ (main env now [prog, s] w).1.stdout ∧
      (main env now [prog, s] w).1.files.lookup (metadataPath (parsePath s))
        = some (dumpIndent2 (metadataKVs (parsePath s) now))) := by
  by_cases hn : pathName (parsePath s) = ""
  · obtain ⟨hs, -, -⟩ := main_empty_name_spec env now w prog s hn hex
    refine ⟨hs, ?_, fun hne => absurd hn hne⟩
    intro cmd hcmd
    rw [hs] at hcmd
    rcases List.mem_append.mp hcmd with h | h
    · exact Or.inl h
    · simp only [List.mem_cons, List.not_mem_nil, or_false] at h
      exact Or.inr h
  · obtain ⟨-, h2, -, hd, hs, hso⟩ := main_run_spec env now w prog s hn hex
    refine ⟨hs, ?_, fun _ => ⟨hd, hso, h2⟩⟩
    intro cmd hcmd
    rw [hs] at hcmd
    rcases List.mem_append.mp hcmd with h | h
    · exact Or.inl h
    · simp only [List.mem_cons, List.not_mem_nil, or_false] at h
      exact Or.inr h

/-- C6 witness: the amended theorem applied to a concrete run. -/
theorem default_flow_spawns_only_probes_witness :
    (main envAllMissing "T" ["prog", "a.pptx"] wOneFile).1.spawned
      = [["convert", "--version"], ["gs", "--version"]] ∧
    sofficeLine (parsePath "a.pptx")
      ∈ (main envAllMissing "T" ["prog", "a.pptx"] wOneFile).1.stdout :=
  ⟨(default_flow_spawns_only_probes envAllMissing "T" wOneFile "prog" "a.pptx"
      (by decide)).1,
   ((default_flow_spawns_only_probes envAllMissing "T" wOneFile "prog" "a.pptx"
      (by decide)).2.2 (by decide)).2.1⟩

/-- C7: running the tool twice on the same existing input (with a file
name) overwrites the metadata stub: the second run raises nothing, and the
metadata file afterwards holds exactly what a single run at the second
timestamp would have written. -/
theorem rerun_overwrites_metadata (env1 env2 : ProcOracle) (now1 now2 : String)
    (w : World) (prog s : String) (hn : pathName (parsePath s) ≠ "")
    (hex : pathExists w (parsePath s) = true) :
    (main env2 now2 [prog, s] (main env1 now1 [prog, s] w).1).2 = none ∧
    (main env2 now2 [prog, s] (main env1 now1 [prog, s] w).1).1.files.lookup
        (metadataPath (parsePath s))
      = some (dumpIndent2 (metadataKVs (parsePath s) now2)) ∧
    (main env2 now2 [prog, s] (main env1 now1 [prog, s] w).1).1.files.lookup
        (metadataPath (parsePath s))
      = (main env2 now2 [prog, s] w).1.files.lookup (metadataPath (parsePath s)) := by
  obtain ⟨-, h1, hq1, hd1, -, -⟩ := main_run_spec env1 now1 w prog s hn hex
  have hex1 : pathExists (main env1 now1 [prog, s] w).1 (parsePath s) = true := by
    have hex2 : (w.files.lookup (parsePath s)).isSome = true
        ∨ w.dirs.contains (parsePath s) = true := by
      simpa [pathExists] using hex
    show (((main env1 now1 [prog, s] w).1.files.lookup (parsePath s)).isSome
        || (main env1 now1 [prog, s] w).1.dirs.contains (parsePath s)) = true
    simp only [Bool.or_eq_true]
    rcases hex2 with hf | hd
    · left
      by_cases hpq : parsePath s = metadataPath (parsePath s)
      · rw [hpq, h1]
        rfl
      · rw [hq1 _ hpq]
        exact hf
    · right
      rw [hd1]
      have hmem : parsePath s ∈ w.dirs := by
        simpa [List.contains, List.elem_iff] using hd
      have hin : parsePath s ∈ insertAncestors w.dirs (outputDir (parsePath s)) :=
        mem_insertAncestors_of_mem _ _ _ hmem
      simpa [List.contains, List.elem_iff] using hin
  obtain ⟨e2, h2, -, -, -, -⟩ :=
    main_run_spec env2 now2 (main env1 now1 [prog, s] w).1 prog s hn hex1
  obtain ⟨-, h3, -, -, -, -⟩ := main_run_spec env2 now2 w prog s hn hex
  exact ⟨e2, h2, h2.trans h3.symm⟩

/-- C7 witness: the theorem applied to a concrete pair of runs. -/
theorem rerun_overwrites_metadata_witness :
    (main envAllOk "T2" ["prog", "a.pptx"]
        (main envAllMissing "T1" ["prog", "a.pptx"] wOneFile).1).1.files.lookup
        (metadataPath (parsePath "a.pptx"))
      = (main envAllOk "T2" ["prog", "a.pptx"] wOneFile).1.files.lookup
        (metadataPath (parsePath "a.pptx")) :=
  (rerun_overwrites_metadata envAllMissing envAllOk "T1" "T2" wOneFile "prog" "a.pptx"
      (by decide) (by decide)).2.2

/-- C8: `pdf_to_images` brings the output directory and all its ancestors
into existence whatever the conversion outcome (so the directory exists
before the conversion is attempted), and a non-zero exit of the conversion
process is caught: the failure line is printed and no exception escapes. -/
theorem rasterizer_creates_dirs_and_catches_failure (env : ProcOracle) (pdf : String)
    (out : Path) (w : World) (dpi code : Nat)
    (h : env (convertCmd pdf out dpi) = ProcOutcome.exit (code + 1)) :
    (∀ env' : ProcOracle, ∀ a ∈ ancestors out,
      a ∈ (pdf_to_images env' pdf out w dpi).1.dirs) ∧
    (pdf_to_images env pdf out w dpi).1.spawned = w.spawned ++ [convertCmd pdf out dpi] ∧
    (pdf_to_images env pdf out w dpi).2 = none ∧
    "✗ Failed to convert PDF" ∈ (pdf_to_images env pdf out w dpi).1.stdout := by
  refine ⟨?_, ?_, ?_, ?_⟩
  · intro env' a ha
    rw [pdf_to_images_dirs]
    exact mem_insertAncestors_self w.dirs out a ha
  · simp [pdf_to_images, subprocessRun, mkdirParents, printLn, h]
  · simp [pdf_to_images, subprocessRun, mkdirParents, printLn, h]
  · simp [pdf_to_images, subprocessRun, mkdirParents, printLn, h]

/-- C8 witness: the theorem applied to an environment where the converter
exits with status 1. -/
theorem rasterizer_creates_dirs_and_catches_failure_witness :
    (pdf_to_images envConvertFails "a.pdf" ["out"] World.empty 300).2 = none ∧
    "✗ Failed to convert PDF"
      ∈ (pdf_to_images envConvertFails "a.pdf" ["out"] World.empty 300).1.stdout ∧
    (["out"] : Path) ∈ (pdf_to_images envConvertFails "a.pdf" ["out"] World.empty 300).1.dirs :=
  ⟨(rasterizer_creates_dirs_and_catches_failure envConvertFails "a.pdf" ["out"]
      World.empty 300 0 rfl).2.2.1,
   (rasterizer_creates_dirs_and_catches_failure envConvertFails "a.pdf" ["out"]
      World.empty 300 0 rfl).2.2.2,
   (rasterizer_creates_dirs_and_catches_failure envConvertFails "a.pdf" ["out"]
      World.empty 300 0 rfl).1 envConvertFails ["out"] (by decide)⟩

/-- C9 (implicit): `pdf_to_images` catches only the non-zero-exit case; if
the converter binary itself is absent, the `FileNotFoundError` escapes
uncaught — no failure line is printed, unlike in the dependency probe. -/
theorem rasterizer_missing_binary_uncaught (env : ProcOracle) (pdf : String) (out : Path)
    (w : World) (dpi : Nat) (h : env (convertCmd pdf out dpi) = ProcOutcome.missing) :
    (pdf_to_images env pdf out w dpi).2
      = some (PyExc.fileNotFoundError (convertCmd pdf out dpi)) ∧
    (pdf_to_images env pdf out w dpi).1.stdout = w.stdout := by
  constructor <;> simp [pdf_to_images, subprocessRun, mkdirParents, printLn, h]

/-- C9 witness: the theorem applied to an environment with no converter. -/
theorem rasterizer_missing_binary_uncaught_witness :
    (pdf_to_images envAllMissing "a.pdf" ["out"] World.empty 300).2
      = some (PyExc.fileNotFoundError (convertCmd "a.pdf" ["out"] 300)) :=
  (rasterizer_missing_binary_uncaught envAllMissing "a.pdf" ["out"] World.empty 300 rfl).1

/-- C10 counterexample: the bare name `.json` ends in `.json`, yet pathlib
treats it as an extensionless hidden file: the derived output path is
`.json.json`, not the input, and the writer does not touch the input
file. -/
theorem bare_dotjson_not_overwritten :
    strEndsWith ".json" ".json" = true ∧
    withSuffix ["d", ".json"] ".json" = some ["d", ".json.json"] ∧
    (["d", ".json.json"] : Path) ≠ (["d", ".json"] : Path) ∧
    (generate_reference_data "T" ["d", ".json"] World.empty).1.files.lookup
      (["d", ".json"] : Path) = none := by
  refine ⟨by decide, by decide, by decide, by decide⟩

/-- C10 (amended): for an input path whose final component is
`stem ++ ".json"` with a nonempty stem, the derived output path equals the
input path, so the tool overwrites its own input file with the metadata
stub. -/
theorem json_input_overwritten (now : String) (w : World) (p : Path) (stem : String)
    (hs : stem ≠ "") (hname : pathName p = stem ++ ".json") :
    withSuffix p ".json" = some p ∧
    (generate_reference_data now p w).1.files.lookup p
      = some (dumpIndent2 (metadataKVs p now)) := by
  have hne : pathName p ≠ "" := by
    rw [hname]
    intro he
    have hlen : (stem ++ ".json").length = 0 := by rw [he]; rfl
    rw [String.length_append] at hlen
    have h5 : (".json" : String).length = 5 := rfl
    omega
  have hlast : p.getLast? = some (pathName p) := getLast?_of_pathName p hne
  have hws : withSuffix p ".json" = some p := by
    unfold withSuffix
    rw [hlast]
    dsimp only
    rw [if_neg hne]
    rw [hname, withSuffixName_json_self stem hs, ← hname]
    rw [dropLast_append_of_getLast? p _ hlast]
  refine ⟨hws, ?_⟩
  simp only [generate_reference_data, hws]
  exact lookup_filter_append_self p (dumpIndent2 (metadataKVs p now)) w.files

/-- C10 witness: the amended theorem applied to a concrete `.json` input. -/
theorem json_input_overwritten_witness :
    withSuffix ["talk.json"] ".json" = some ["talk.json"] ∧
    (generate_reference_data "T" ["talk.json"] World.empty).1.files.lookup
        (["talk.json"] : Path)
      = some (dumpIndent2 (metadataKVs ["talk.json"] "T")) :=
  json_input_overwritten "T" World.empty ["talk.json"] "talk" (by decide) (by decide)

end PptxRefs
